import Mathlib

/-!
# Little Lemon, `src/screens/Home.js`

A shallow embedding of the data layer of the `Home` screen: the cold-start
synchronisation (`initializeDatabase`, `fetchMenuData`), the render-time
category filter handed to the `FlatList`, its `keyExtractor`, the category
toggle `handleSelectCategory`, and the debounce effect around
`fetchFilteredMenuData`.

JavaScript arrays are `List`s, strings are `String`s, and asynchronous
functions are run to completion in program order over an explicit `World`.
-/

namespace LittleLemon

/-! ## Data model -/

/-- One row of the menu, with the fields the remote document and the `menu`
table carry. `price` is held in hundredths; no modelled function inspects it. -/
structure MenuItem where
  name : String
  description : String
  price : Nat
  image : String
  category : String
deriving DecidableEq, Repr

/-! ## Pure helpers of the screen -/

/-- The JavaScript idiom `[...new Set(xs)]`: a `Set` keeps the first occurrence
of every value, in insertion order, and spreading it lists them in that order. -/
def spreadNewSet (xs : List String) : List String :=
  xs.foldl (fun acc x => if acc.contains x then acc else acc ++ [x]) []

/-- The `data` prop of the `FlatList` (Home.js 238-242):
`menuData.filter(item => selectedCategories.includes(item.category) ||
selectedCategories.length === 0)`. -/
def flatListData (menuData : List MenuItem) (selectedCategories : List String) :
    List MenuItem :=
  menuData.filter fun item =>
    selectedCategories.contains item.category || selectedCategories.length == 0

/-- The `keyExtractor` prop of the `FlatList` (Home.js 243): the template
literal that joins the name, a dash and the index. -/
def keyExtractor (item : MenuItem) (index : Nat) : String :=
  item.name ++ "-" ++ toString index

/-- The keys the `FlatList` gives to the rows of `data`, row by row. -/
def listKeys (data : List MenuItem) : List String :=
  data.enum.map fun p => keyExtractor p.2 p.1

/-- The updater that `handleSelectCategory` passes to `setSelectedCategories`
(Home.js 159-165). -/
def handleSelectCategory (category : String) (prevSelectedCategories : List String) :
    List String :=
  if prevSelectedCategories.contains category then
    prevSelectedCategories.filter fun cat => cat != category
  else
    prevSelectedCategories ++ [category]

/-! ## The world the asynchronous functions run in -/

/-- The errors a collaborator of the screen can raise. -/
inductive Err where
  | storageInit
  | storageRead
  | storageWrite
  | network
  | parse
  | typeError
deriving DecidableEq, Repr

/-- What the remote endpoint does on `fetch(url)` followed by
`response.json()`: the request is rejected, the body does not parse, or a
document arrives whose `menu` field is a list of items or is absent. -/
inductive Remote where
  | fetchFails
  | jsonFails
  | document (menu : Option (List MenuItem))
deriving DecidableEq, Repr

/-- The behaviour of the collaborators during one run. -/
structure Env where
  initFails : Bool
  readFails : Bool
  remote : Remote
  insertFails : Bool
deriving DecidableEq, Repr

/-- The observable calls, in program order. -/
inductive Call where
  | init
  | fetchMenuData
  | fetchMenuItems
  | fetch
  | responseJson
  | insertMenuItems (items : List MenuItem)
  | consoleError (message : String) (error : Err)
deriving DecidableEq, Repr

/-- The rows of the `menu` table, the React state of the screen that the
synchronisation writes (`menuData` is `none` when it holds `undefined`), and
the calls made so far. -/
structure World where
  store : List MenuItem
  menuData : Option (List MenuItem)
  categories : List String
  trace : List Call
deriving DecidableEq, Repr

/-- The state of a freshly mounted screen over a given table:
`useState([])` for both `menuData` and `categories`, nothing called yet. -/
def World.mount (store : List MenuItem) : World :=
  { store := store, menuData := some [], categories := [], trace := [] }

/-- An asynchronous function run to completion: from a world it returns or
throws, and the world it leaves keeps every write made before a throw. -/
def Async (α : Type) : Type := World → Except Err α × World

instance : Monad Async where
  pure a := fun w => (.ok a, w)
  bind x f := fun w =>
    match x w with
    | (.ok a, w1) => f a w1
    | (.error e, w1) => (.error e, w1)

/-- The statements `throw` and `try ... catch` of JavaScript. -/
instance : MonadExcept Err Async where
  throw e := fun w => (.error e, w)
  tryCatch x h := fun w =>
    match x w with
    | (.ok a, w1) => (.ok a, w1)
    | (.error e, w1) => h e w1

/-- Read the world. -/
def getWorld : Async World := fun w => (.ok w, w)

/-- Write the world. -/
def modifyWorld (f : World → World) : Async Unit := fun w => (.ok (), f w)

/-- Record a call. -/
def call (c : Call) : Async Unit :=
  modifyWorld fun w => { w with trace := w.trace ++ [c] }

/-- The state setter `setMenuData`. -/
def setMenuData (v : Option (List MenuItem)) : Async Unit :=
  modifyWorld fun w => { w with menuData := v }

/-- The state setter `setCategories`. -/
def setCategories (v : List String) : Async Unit :=
  modifyWorld fun w => { w with categories := v }

/-- The call `console.error(message, error)`. -/
def consoleError (message : String) (error : Err) : Async Unit :=
  call (.consoleError message error)

/-- Modelled from the spec: `init` of `../db.js`, which is not in the sources.
Item Store `initialize()` creates the table if absent and fails when the
medium is inaccessible. -/
def init (env : Env) : Async Unit := do
  call .init
  if env.initFails then throw .storageInit

/-- Modelled from the spec: `fetchMenuItems()` of `../db.js` called without a
filter, which is not in the sources. Item Store `queryFiltered` with the empty
filter returns every row in insertion order; a failed read is an error. -/
def fetchMenuItems (env : Env) : Async (List MenuItem) := do
  call .fetchMenuItems
  if env.readFails then throw .storageRead
  return (← getWorld).store

/-- Modelled from the spec: `insertMenuItems` of `../db.js`, which is not in
the sources. Item Store `insertMany` appends the items as one batch, and a
failed batch is not committed. -/
def insertMenuItems (env : Env) (items : List MenuItem) : Async Unit := do
  call (.insertMenuItems items)
  if env.insertFails then throw .storageWrite
  modifyWorld fun w => { w with store := w.store ++ items }

/-- The two awaited steps `fetch(url)` and `response.json()` (Home.js 98-101),
giving `json.menu`. -/
def fetchJsonMenu (env : Env) : Async (Option (List MenuItem)) := do
  call .fetch
  match env.remote with
  | .fetchFails => throw .network
  | .jsonFails =>
    call .responseJson
    throw .parse
  | .document menu =>
    call .responseJson
    return menu

/-! ## The synchronisation -/

/-- The function `fetchMenuData` (Home.js 80-118). Reading `.map` of an absent
`json.menu` throws a `TypeError` after `setMenuData(json.menu)` has run. -/
def fetchMenuData (env : Env) : Async Unit := do
  call .fetchMenuData
  try
    let storedMenuItems ← fetchMenuItems env
    if storedMenuItems.length > 0 then
      setMenuData (some storedMenuItems)
      setCategories
        (spreadNewSet (storedMenuItems.map (fun item => item.category) ++ ["Drinks", "Specials"]))
      return
    let menu ← fetchJsonMenu env
    setMenuData menu
    match menu with
    | none => throw .typeError
    | some items =>
      setCategories
        (spreadNewSet (items.map (fun item => item.category) ++ ["Drinks", "Specials"]))
      insertMenuItems env items
  catch error =>
    consoleError "Error fetching menu data:" error

/-- The function `initializeDatabase` of the mount effect (Home.js 47-54). The
call `fetchMenuData()` is not awaited there; it is run to completion here, and
since `fetchMenuData` catches every error it never reaches this `catch`. -/
def initializeDatabase (env : Env) : Async Unit := do
  try
    init env
    fetchMenuData env
  catch error =>
    consoleError "Error initializing database:" error

/-- Run an asynchronous function from a world: its outcome and the world it
leaves. -/
def run {α : Type} (f : Async α) (w : World) : Except Err α × World :=
  f w

/-- The calls made while an asynchronous function runs from a world. -/
def callsDuring {α : Type} (f : Async α) (w : World) : List Call :=
  (run f w).2.trace.drop w.trace.length

/-! ## The debounced query -/

/-- The filter a render closes over: the `selectedCategories` and `searchText`
that `fetchFilteredMenuData` (Home.js 121-131) passes to `fetchMenuItems`. -/
structure Filter where
  selectedCategories : List String
  searchText : String
deriving DecidableEq, Repr

/-- A timer of the host, armed by one debounced function. -/
structure Timer where
  id : Nat
  due : Nat
  filter : Filter
deriving DecidableEq, Repr

/-- The scheduling state of the screen: the clock, the timers that are armed,
the timer that the cleanup of the latest effect run cancels, and the
invocations of `fetchFilteredMenuData` so far, oldest first. -/
structure Scheduler where
  now : Nat
  nextId : Nat
  timers : List Timer
  cleanup : Option Nat
  calls : List Filter
deriving DecidableEq, Repr

/-- The screen before its first render: nothing armed, nothing called. -/
def Scheduler.initial : Scheduler :=
  { now := 0, nextId := 0, timers := [], cleanup := none, calls := [] }

/-- The delay given to `debounce` (Home.js 135). -/
def wait : Nat := 500

/-- Time passes: the clock advances by `d`, and every armed timer that has come
due invokes its `fetchFilteredMenuData` and leaves the queue. -/
def elapse (d : Nat) (s : Scheduler) : Scheduler :=
  { s with
    now := s.now + d
    timers := s.timers.filter fun tm => !decide (tm.due ≤ s.now + d)
    calls := s.calls ++ (s.timers.filter fun tm => decide (tm.due ≤ s.now + d)).map Timer.filter }

/-- The cleanup returned by the effect (Home.js 137-139):
`debouncedFetchFilteredMenuData.cancel()` disarms the timer of that run. -/
def runCleanup (s : Scheduler) : Scheduler :=
  match s.cleanup with
  | none => s
  | some id => { s with timers := s.timers.filter fun tm => tm.id != id }

/-- Modelled from the spec: `debounce` of `lodash.debounce` is a dependency and
not in the sources. The body of the effect (Home.js 135-136) makes a fresh
debounced function and calls it once, which schedules one invocation after the
fixed delay; the cleanup it returns cancels that invocation. -/
def runEffect (f : Filter) (s : Scheduler) : Scheduler :=
  { s with
    nextId := s.nextId + 1
    timers := s.timers ++ [{ id := s.nextId, due := s.now + wait, filter := f }]
    cleanup := some s.nextId }

/-- A filter-change event arriving `gap` time units after the previous step:
the new `fetchFilteredMenuData` makes React run the cleanup of the previous
effect run and then the effect again (Home.js 134-140). -/
def filterChange (gap : Nat) (f : Filter) (s : Scheduler) : Scheduler :=
  runEffect f (runCleanup (elapse gap s))

/-- A sequence of filter-change events, each with its delay after the
previous one. -/
def filterChanges (events : List (Nat × Filter)) (s : Scheduler) : Scheduler :=
  events.foldl (fun acc e => filterChange e.1 e.2 acc) s

/-- One step of the screen: a filter change arrives, or time passes. -/
inductive Step : Scheduler → Scheduler → Prop where
  | change (gap : Nat) (f : Filter) (s : Scheduler) : Step s (filterChange gap f s)
  | idle (d : Nat) (s : Scheduler) : Step s (elapse d s)

/-- The states the screen can reach from its first render. -/
inductive Reachable : Scheduler → Prop where
  | initial : Reachable Scheduler.initial
  | step {s t : Scheduler} : Reachable s → Step s t → Reachable t

/-! ## Sample data -/

/-- The item of the one-row scenario. -/
def greekSalad : MenuItem :=
  { name := "Greek Salad", description := "Fresh greens", price := 1299, image := "greek.jpg",
    category := "Starters" }

/-- A second dish, in another category. -/
def lemonDessert : MenuItem :=
  { name := "Lemon Dessert", description := "Traditional homemade cake", price := 650,
    image := "lemonDessert.jpg", category := "Desserts" }

/-- The category list that `fetchMenuData` hands to `setCategories`
(Home.js 86-92 and 103-109) as a function of the item list. -/
def categoryList (items : List MenuItem) : List String :=
  spreadNewSet (items.map (fun item => item.category) ++ ["Drinks", "Specials"])

/-! ## Symbolic execution of asynchronous functions -/

theorem run_pure {α : Type} (a : α) (w : World) : run (pure a : Async α) w = (.ok a, w) := rfl

theorem run_throw {α : Type} (e : Err) (w : World) :
    run (throw e : Async α) w = (.error e, w) := rfl

theorem run_modifyWorld (f : World → World) (w : World) :
    run (modifyWorld f) w = (.ok (), f w) := rfl

theorem run_getWorld (w : World) : run getWorld w = (.ok w, w) := rfl

theorem run_bind {α β : Type} (x : Async α) (f : α → Async β) (w : World) :
    run (x >>= f) w =
      match run x w with
      | (.ok a, w1) => run (f a) w1
      | (.error e, w1) => (.error e, w1) := rfl

theorem run_map {α β : Type} (x : Async α) (f : α → β) (w : World) :
    run (f <$> x) w =
      match run x w with
      | (.ok a, w1) => (.ok (f a), w1)
      | (.error e, w1) => (.error e, w1) := rfl

theorem run_tryCatch {α : Type} (x : Async α) (h : Err → Async α) (w : World) :
    run (tryCatch x h) w =
      match run x w with
      | (.ok a, w1) => (.ok a, w1)
      | (.error e, w1) => run (h e) w1 := rfl

/-! ## The branches of `fetchMenuData` -/

/-- Cache hit: the table has rows and the read succeeds. -/
theorem fetchMenuData_hit (env : Env) (w : World) (hs : w.store ≠ [])
    (hr : env.readFails = false) :
    run (fetchMenuData env) w =
      (.ok (),
        { w with
          menuData := some w.store
          categories :=
            spreadNewSet (w.store.map (fun item => item.category) ++ ["Drinks", "Specials"])
          trace := w.trace ++ [.fetchMenuData, .fetchMenuItems] }) := by
  have hl : 0 < w.store.length := List.length_pos.mpr hs
  simp [fetchMenuData, fetchMenuItems, call, setMenuData, setCategories, run_bind,
    run_tryCatch, run_modifyWorld, run_getWorld, run_pure, run_throw, run_map, hr, hl]

/-- The read of the table fails. -/
theorem fetchMenuData_readFails (env : Env) (w : World) (hr : env.readFails = true) :
    run (fetchMenuData env) w =
      (.ok (),
        { w with
          trace := w.trace ++ [.fetchMenuData, .fetchMenuItems,
            .consoleError "Error fetching menu data:" .storageRead] }) := by
  simp [fetchMenuData, fetchMenuItems, consoleError, call, run_bind,
    run_tryCatch, run_modifyWorld, run_getWorld, run_pure, run_throw, run_map, hr]

/-- Cold start, the request is rejected. -/
theorem fetchMenuData_fetchFails (env : Env) (w : World) (hs : w.store = [])
    (hr : env.readFails = false) (hf : env.remote = .fetchFails) :
    run (fetchMenuData env) w =
      (.ok (),
        { w with
          trace := w.trace ++ [.fetchMenuData, .fetchMenuItems, .fetch,
            .consoleError "Error fetching menu data:" .network] }) := by
  simp [fetchMenuData, fetchMenuItems, fetchJsonMenu, consoleError, call, setMenuData,
    setCategories, run_bind, run_tryCatch, run_modifyWorld, run_getWorld, run_pure, run_throw,
    run_map, hr, hs, hf]

/-- Cold start, the body of the response does not parse. -/
theorem fetchMenuData_jsonFails (env : Env) (w : World) (hs : w.store = [])
    (hr : env.readFails = false) (hf : env.remote = .jsonFails) :
    run (fetchMenuData env) w =
      (.ok (),
        { w with
          trace := w.trace ++ [.fetchMenuData, .fetchMenuItems, .fetch, .responseJson,
            .consoleError "Error fetching menu data:" .parse] }) := by
  simp [fetchMenuData, fetchMenuItems, fetchJsonMenu, consoleError, call, setMenuData,
    setCategories, run_bind, run_tryCatch, run_modifyWorld, run_getWorld, run_pure, run_throw,
    run_map, hr, hs, hf]

/-- Cold start, the document has no `menu`. -/
theorem fetchMenuData_noMenu (env : Env) (w : World) (hs : w.store = [])
    (hr : env.readFails = false) (hf : env.remote = .document none) :
    run (fetchMenuData env) w =
      (.ok (),
        { w with
          menuData := none
          trace := w.trace ++ [.fetchMenuData, .fetchMenuItems, .fetch, .responseJson,
            .consoleError "Error fetching menu data:" .typeError] }) := by
  simp [fetchMenuData, fetchMenuItems, fetchJsonMenu, consoleError, call, setMenuData,
    setCategories, run_bind, run_tryCatch, run_modifyWorld, run_getWorld, run_pure, run_throw,
    run_map, hr, hs, hf]

/-- Cold start, the document arrives and the insert fails. -/
theorem fetchMenuData_insertFails (env : Env) (w : World) (items : List MenuItem)
    (hs : w.store = []) (hr : env.readFails = false)
    (hf : env.remote = .document (some items)) (hi : env.insertFails = true) :
    run (fetchMenuData env) w =
      (.ok (),
        { w with
          menuData := some items
          categories :=
            spreadNewSet (items.map (fun item => item.category) ++ ["Drinks", "Specials"])
          trace := w.trace ++ [.fetchMenuData, .fetchMenuItems, .fetch, .responseJson,
            .insertMenuItems items, .consoleError "Error fetching menu data:" .storageWrite] }) := by
  simp [fetchMenuData, fetchMenuItems, fetchJsonMenu, insertMenuItems, consoleError, call,
    setMenuData, setCategories, run_bind, run_tryCatch, run_modifyWorld, run_getWorld, run_pure,
    run_throw, run_map, hr, hs, hf, hi]

/-- Cold start, the document arrives and the insert succeeds. -/
theorem fetchMenuData_synced (env : Env) (w : World) (items : List MenuItem)
    (hs : w.store = []) (hr : env.readFails = false)
    (hf : env.remote = .document (some items)) (hi : env.insertFails = false) :
    run (fetchMenuData env) w =
      (.ok (),
        { w with
          store := items
          menuData := some items
          categories :=
            spreadNewSet (items.map (fun item => item.category) ++ ["Drinks", "Specials"])
          trace := w.trace ++ [.fetchMenuData, .fetchMenuItems, .fetch, .responseJson,
            .insertMenuItems items] }) := by
  simp [fetchMenuData, fetchMenuItems, fetchJsonMenu, insertMenuItems, consoleError, call,
    setMenuData, setCategories, run_bind, run_tryCatch, run_modifyWorld, run_getWorld, run_pure,
    run_throw, run_map, hr, hs, hf, hi]

/-- The calls of a run that only appends to the trace. -/
theorem callsDuring_of_trace {α : Type} (f : Async α) (w : World) (cs : List Call)
    (h : (run f w).2.trace = w.trace ++ cs) : callsDuring f w = cs := by
  simp [callsDuring, h]

/-- Every run of `fetchMenuData` returns normally, and its calls are its own
entry followed by calls none of which is another entry. -/
theorem fetchMenuData_trace (env : Env) (w : World) :
    (run (fetchMenuData env) w).1 = .ok () ∧
      ∃ rest, (run (fetchMenuData env) w).2.trace = w.trace ++ Call.fetchMenuData :: rest ∧
        Call.fetchMenuData ∉ rest := by
  cases hr : env.readFails with
  | true =>
    rw [fetchMenuData_readFails env w hr]
    exact ⟨rfl, _, rfl, by simp⟩
  | false =>
    by_cases hs : w.store = []
    · cases hf : env.remote with
      | fetchFails =>
        rw [fetchMenuData_fetchFails env w hs hr hf]
        exact ⟨rfl, _, rfl, by simp⟩
      | jsonFails =>
        rw [fetchMenuData_jsonFails env w hs hr hf]
        exact ⟨rfl, _, rfl, by simp⟩
      | document menu =>
        cases menu with
        | none =>
          rw [fetchMenuData_noMenu env w hs hr hf]
          exact ⟨rfl, _, rfl, by simp⟩
        | some items =>
          cases hi : env.insertFails with
          | true =>
            rw [fetchMenuData_insertFails env w items hs hr hf hi]
            exact ⟨rfl, _, rfl, by simp⟩
          | false =>
            rw [fetchMenuData_synced env w items hs hr hf hi]
            exact ⟨rfl, _, rfl, by simp⟩
    · rw [fetchMenuData_hit env w hs hr]
      exact ⟨rfl, _, rfl, by simp⟩

/-- When `init` fails, `initializeDatabase` logs the error and stops. -/
theorem initializeDatabase_initFails (env : Env) (w : World) (h : env.initFails = true) :
    run (initializeDatabase env) w =
      (.ok (),
        { w with
          trace := w.trace ++
            [.init, .consoleError "Error initializing database:" .storageInit] }) := by
  simp [initializeDatabase, init, consoleError, call, run_bind, run_tryCatch, run_modifyWorld,
    run_pure, run_throw, run_map, h]

/-- When `init` succeeds, `initializeDatabase` continues as `fetchMenuData`. -/
theorem initializeDatabase_initOk (env : Env) (w : World) (h : env.initFails = false) :
    run (initializeDatabase env) w =
      run (fetchMenuData env) { w with trace := w.trace ++ [.init] } := by
  have hok := (fetchMenuData_trace env { w with trace := w.trace ++ [.init] }).1
  rcases hrun : run (fetchMenuData env) { w with trace := w.trace ++ [.init] } with ⟨r, w2⟩
  rw [hrun] at hok
  simp only at hok
  subst hok
  simp [initializeDatabase, init, call, run_bind, run_tryCatch, run_modifyWorld,
    run_pure, run_throw, run_map, h, hrun]

/-! ## The category list -/

/-- Folding the `Set` insertion keeps a duplicate-free accumulator
duplicate-free and adds exactly the members of the input. -/
theorem spreadNewSet_fold (xs acc : List String) (hacc : acc.Nodup) :
    (xs.foldl (fun acc x => if acc.contains x then acc else acc ++ [x]) acc).Nodup ∧
      ∀ c, c ∈ xs.foldl (fun acc x => if acc.contains x then acc else acc ++ [x]) acc ↔
        c ∈ acc ∨ c ∈ xs := by
  induction xs generalizing acc with
  | nil => simp [hacc]
  | cons x xs ih =>
    simp only [List.foldl_cons]
    by_cases hx : x ∈ acc
    · have hc : acc.contains x = true := by simpa using hx
      rw [if_pos hc]
      refine ⟨(ih acc hacc).1, fun c => ?_⟩
      rw [(ih acc hacc).2 c]
      constructor
      · rintro (h | h)
        · exact Or.inl h
        · exact Or.inr (List.mem_cons_of_mem _ h)
      · rintro (h | h)
        · exact Or.inl h
        · rcases List.mem_cons.mp h with rfl | h
          · exact Or.inl hx
          · exact Or.inr h
    · have hc : ¬ acc.contains x = true := by simpa using hx
      rw [if_neg hc]
      have hnd : (acc ++ [x]).Nodup := by
        rw [List.nodup_append]
        exact ⟨hacc, List.nodup_singleton x, by
          intro a ha hb
          rw [List.mem_singleton] at hb
          subst hb
          exact hx ha⟩
      refine ⟨(ih _ hnd).1, fun c => ?_⟩
      rw [(ih _ hnd).2 c]
      simp only [List.mem_append, List.mem_singleton, List.mem_cons]
      tauto

theorem spreadNewSet_nodup (xs : List String) : (spreadNewSet xs).Nodup :=
  (spreadNewSet_fold xs [] List.nodup_nil).1

theorem mem_spreadNewSet (xs : List String) (c : String) : c ∈ spreadNewSet xs ↔ c ∈ xs := by
  have h := (spreadNewSet_fold xs [] List.nodup_nil).2 c
  simpa [spreadNewSet] using h

/-- C4: for every item list the category list is duplicate-free, holds exactly
the categories of the items together with "Drinks" and "Specials", always
holds both of these, is Starters, Drinks, Specials for a single item of
category "Starters", and is what both the cache-hit and the cold-start branch
of `fetchMenuData` store in `categories`. -/
theorem categoryList_spec (items : List MenuItem) :
    (categoryList items).Nodup ∧
    (∀ c, c ∈ categoryList items ↔
      (∃ item ∈ items, item.category = c) ∨ c = "Drinks" ∨ c = "Specials") ∧
    "Drinks" ∈ categoryList items ∧ "Specials" ∈ categoryList items ∧
    (∀ item : MenuItem, item.category = "Starters" →
      categoryList [item] = ["Starters", "Drinks", "Specials"]) ∧
    (∀ (env : Env) (w : World), env.readFails = false → w.store = items → items ≠ [] →
      (run (fetchMenuData env) w).2.categories = categoryList items) ∧
    (∀ (env : Env) (w : World), env.readFails = false → w.store = [] →
      env.remote = .document (some items) →
      (run (fetchMenuData env) w).2.categories = categoryList items) := by
  have hmem : ∀ c, c ∈ categoryList items ↔
      (∃ item ∈ items, item.category = c) ∨ c = "Drinks" ∨ c = "Specials" := by
    intro c
    simp [categoryList, mem_spreadNewSet]
  refine ⟨spreadNewSet_nodup _, hmem, (hmem _).2 (Or.inr (Or.inl rfl)),
    (hmem _).2 (Or.inr (Or.inr rfl)), ?_, ?_, ?_⟩
  · intro item h
    simp [categoryList, spreadNewSet, h]
  · intro env w hr hs hne
    rw [fetchMenuData_hit env w (hs ▸ hne) hr, hs]
    rfl
  · intro env w hr hs hf
    cases hi : env.insertFails with
    | true => rw [fetchMenuData_insertFails env w items hs hr hf hi]; rfl
    | false => rw [fetchMenuData_synced env w items hs hr hf hi]; rfl

/-- C4 at the one-row scenario, through both branches. -/
theorem categoryList_spec_witness :
    categoryList [greekSalad] = ["Starters", "Drinks", "Specials"] ∧
    (run (fetchMenuData ⟨false, false, .fetchFails, false⟩)
      (World.mount [greekSalad])).2.categories = categoryList [greekSalad] ∧
    (run (fetchMenuData ⟨false, false, .document (some [greekSalad]), false⟩)
      (World.mount [])).2.categories = categoryList [greekSalad] :=
  ⟨(categoryList_spec [greekSalad]).2.2.2.2.1 greekSalad rfl,
    (categoryList_spec [greekSalad]).2.2.2.2.2.1 _ _ rfl rfl (by decide),
    (categoryList_spec [greekSalad]).2.2.2.2.2.2 _ _ rfl rfl rfl⟩

/-! ## The cache-hit path -/

/-- C1: when the table has rows and `fetchMenuItems()` returns them,
`fetchMenuData` returns after its own entry and that one read: it makes no
remote fetch and no call of `insertMenuItems`, sets `menuData` to exactly the
stored rows, and leaves the table as it was. -/
theorem fetchMenuData_cache_hit (env : Env) (w : World) (hs : w.store ≠ [])
    (hr : env.readFails = false) :
    (run (fetchMenuItems env) w).1 = .ok w.store ∧
    (run (fetchMenuData env) w).1 = .ok () ∧
    (run (fetchMenuData env) w).2.menuData = some w.store ∧
    callsDuring (fetchMenuData env) w = [.fetchMenuData, .fetchMenuItems] ∧
    Call.fetch ∉ callsDuring (fetchMenuData env) w ∧
    (∀ items, Call.insertMenuItems items ∉ callsDuring (fetchMenuData env) w) ∧
    (run (fetchMenuData env) w).2.store = w.store := by
  have hc : callsDuring (fetchMenuData env) w = [.fetchMenuData, .fetchMenuItems] :=
    callsDuring_of_trace _ _ _ (by rw [fetchMenuData_hit env w hs hr])
  refine ⟨?_, ?_, ?_, hc, ?_, ?_, ?_⟩
  · simp [fetchMenuItems, call, run_bind, run_modifyWorld, run_getWorld, run_pure, hr]
  · rw [fetchMenuData_hit env w hs hr]
  · rw [fetchMenuData_hit env w hs hr]
  · rw [hc]; decide
  · intro items; rw [hc]; simp
  · rw [fetchMenuData_hit env w hs hr]

/-- C1 on a table of two rows, with a remote that would answer. -/
theorem fetchMenuData_cache_hit_witness :
    (run (fetchMenuData ⟨false, false, .document (some [lemonDessert]), false⟩)
      (World.mount [greekSalad, lemonDessert])).2.menuData = some [greekSalad, lemonDessert] ∧
    callsDuring (fetchMenuData ⟨false, false, .document (some [lemonDessert]), false⟩)
      (World.mount [greekSalad, lemonDessert]) = [.fetchMenuData, .fetchMenuItems] :=
  ⟨(fetchMenuData_cache_hit ⟨false, false, .document (some [lemonDessert]), false⟩
      (World.mount [greekSalad, lemonDessert]) (by decide) rfl).2.2.1,
    (fetchMenuData_cache_hit ⟨false, false, .document (some [lemonDessert]), false⟩
      (World.mount [greekSalad, lemonDessert]) (by decide) rfl).2.2.2.1⟩

/-! ## Failures of the cold-start synchronisation -/

/-- C6, as stated, fails: on a freshly mounted screen over an empty table, with
a remote that answers with one item and an insert that fails, the error is
logged and yet `menuData` and `categories` hold the fetched item and its
categories. -/
theorem fetchMenuData_insert_failure_shows_items :
    ¬ ∀ (env : Env),
        (run (fetchMenuItems env) (World.mount [])).1 = .ok [] →
        (∃ e, Call.consoleError "Error fetching menu data:" e ∈
          callsDuring (fetchMenuData env) (World.mount [])) →
        (run (fetchMenuData env) (World.mount [])).2.menuData = some [] ∧
        (run (fetchMenuData env) (World.mount [])).2.categories = [] := by
  intro h
  have h1 := h ⟨false, false, .document (some [greekSalad]), true⟩ rfl
    ⟨.storageWrite, by decide⟩
  exact absurd h1.1 (by decide)

/-- C6, amended: on a cold start (empty table, successful read), when the
remote fetch or `response.json()` fails, `menuData` and `categories` keep the
values they had, which on a freshly mounted screen are the empty lists, and the
table stays empty; when the document arrives and `insertMenuItems` fails,
`menuData` already holds the fetched items and `categories` the list derived
from them, and the table stays empty. -/
theorem fetchMenuData_cold_start_failure (env : Env) (w : World) (hs : w.store = [])
    (hr : env.readFails = false) :
    ((env.remote = .fetchFails ∨ env.remote = .jsonFails) →
      (run (fetchMenuData env) w).2.menuData = w.menuData ∧
      (run (fetchMenuData env) w).2.categories = w.categories ∧
      (run (fetchMenuData env) w).2.store = []) ∧
    (∀ items, env.remote = .document (some items) → env.insertFails = true →
      (run (fetchMenuData env) w).2.menuData = some items ∧
      (run (fetchMenuData env) w).2.categories = categoryList items ∧
      (run (fetchMenuData env) w).2.store = []) := by
  refine ⟨?_, ?_⟩
  · rintro (hf | hf)
    · rw [fetchMenuData_fetchFails env w hs hr hf]; exact ⟨rfl, rfl, hs⟩
    · rw [fetchMenuData_jsonFails env w hs hr hf]; exact ⟨rfl, rfl, hs⟩
  · intro items hf hi
    rw [fetchMenuData_insertFails env w items hs hr hf hi]
    exact ⟨rfl, rfl, hs⟩

/-- C6, amended, on a freshly mounted screen: a rejected request leaves the
empty lists, a failed insert leaves the fetched item. -/
theorem fetchMenuData_cold_start_failure_witness :
    ((run (fetchMenuData ⟨false, false, .fetchFails, false⟩) (World.mount [])).2.menuData
        = some [] ∧
      (run (fetchMenuData ⟨false, false, .fetchFails, false⟩) (World.mount [])).2.categories
        = [] ∧
      (run (fetchMenuData ⟨false, false, .fetchFails, false⟩) (World.mount [])).2.store = []) ∧
    ((run (fetchMenuData ⟨false, false, .document (some [greekSalad]), true⟩)
        (World.mount [])).2.menuData = some [greekSalad] ∧
      (run (fetchMenuData ⟨false, false, .document (some [greekSalad]), true⟩)
        (World.mount [])).2.categories = categoryList [greekSalad] ∧
      (run (fetchMenuData ⟨false, false, .document (some [greekSalad]), true⟩)
        (World.mount [])).2.store = []) :=
  ⟨(fetchMenuData_cold_start_failure ⟨false, false, .fetchFails, false⟩ (World.mount [])
      rfl rfl).1 (Or.inl rfl),
    (fetchMenuData_cold_start_failure ⟨false, false, .document (some [greekSalad]), true⟩
      (World.mount []) rfl rfl).2 [greekSalad] rfl rfl⟩

/-- C7: on a cold start (empty table, `fetchMenuItems()` returns the empty
list), when the remote fetch or `response.json()` fails, `fetchMenuData` makes
no call of `insertMenuItems`, the table stays empty, and the function returns
normally: the error is caught and logged. -/
theorem fetchMenuData_network_failure (env : Env) (w : World) (hs : w.store = [])
    (hr : env.readFails = false)
    (hf : env.remote = .fetchFails ∨ env.remote = .jsonFails) :
    (run (fetchMenuItems env) w).1 = .ok [] ∧
    (run (fetchMenuData env) w).1 = .ok () ∧
    (∀ items, Call.insertMenuItems items ∉ callsDuring (fetchMenuData env) w) ∧
    (run (fetchMenuData env) w).2.store = [] ∧
    (∃ e, Call.consoleError "Error fetching menu data:" e ∈
      callsDuring (fetchMenuData env) w) := by
  refine ⟨?_, ?_⟩
  · simp [fetchMenuItems, call, run_bind, run_modifyWorld, run_getWorld, run_pure, hr, hs]
  · rcases hf with hf | hf
    · have hc : callsDuring (fetchMenuData env) w = [.fetchMenuData, .fetchMenuItems, .fetch,
          .consoleError "Error fetching menu data:" .network] :=
        callsDuring_of_trace _ _ _ (by rw [fetchMenuData_fetchFails env w hs hr hf])
      rw [fetchMenuData_fetchFails env w hs hr hf, hc]
      exact ⟨rfl, fun items => by simp, hs, .network, by simp⟩
    · have hc : callsDuring (fetchMenuData env) w = [.fetchMenuData, .fetchMenuItems, .fetch,
          .responseJson, .consoleError "Error fetching menu data:" .parse] :=
        callsDuring_of_trace _ _ _ (by rw [fetchMenuData_jsonFails env w hs hr hf])
      rw [fetchMenuData_jsonFails env w hs hr hf, hc]
      exact ⟨rfl, fun items => by simp, hs, .parse, by simp⟩

/-- C7 on a freshly mounted screen whose request is rejected. -/
theorem fetchMenuData_network_failure_witness :
    (run (fetchMenuData ⟨false, false, .fetchFails, false⟩) (World.mount [])).1 = .ok () ∧
    (run (fetchMenuData ⟨false, false, .fetchFails, false⟩) (World.mount [])).2.store = [] :=
  ⟨(fetchMenuData_network_failure ⟨false, false, .fetchFails, false⟩ (World.mount []) rfl rfl
      (Or.inl rfl)).2.1,
    (fetchMenuData_network_failure ⟨false, false, .fetchFails, false⟩ (World.mount []) rfl rfl
      (Or.inl rfl)).2.2.2.1⟩

/-! ## Storage initialisation -/

/-- C8: when `init()` fails, `initializeDatabase` calls `init`, logs the error
and nothing else: no `fetchMenuData`, no store read, no remote fetch, no
insert, and the world is otherwise unchanged; when `init()` succeeds,
`fetchMenuData` is entered exactly once. -/
theorem initializeDatabase_gate (env : Env) (w : World) :
    (env.initFails = true →
      (run (initializeDatabase env) w).1 = .ok () ∧
      callsDuring (initializeDatabase env) w =
        [.init, .consoleError "Error initializing database:" .storageInit] ∧
      Call.fetchMenuData ∉ callsDuring (initializeDatabase env) w ∧
      Call.fetchMenuItems ∉ callsDuring (initializeDatabase env) w ∧
      Call.fetch ∉ callsDuring (initializeDatabase env) w ∧
      (∀ items, Call.insertMenuItems items ∉ callsDuring (initializeDatabase env) w) ∧
      (run (initializeDatabase env) w).2.store = w.store ∧
      (run (initializeDatabase env) w).2.menuData = w.menuData) ∧
    (env.initFails = false →
      (callsDuring (initializeDatabase env) w).count Call.fetchMenuData = 1) := by
  refine ⟨fun h => ?_, fun h => ?_⟩
  · have hc : callsDuring (initializeDatabase env) w =
        [.init, .consoleError "Error initializing database:" .storageInit] :=
      callsDuring_of_trace _ _ _ (by rw [initializeDatabase_initFails env w h])
    rw [hc, initializeDatabase_initFails env w h]
    exact ⟨rfl, rfl, by decide, by decide, by decide, fun items => by simp, rfl, rfl⟩
  · obtain ⟨_, rest, htr, hrest⟩ := fetchMenuData_trace env { w with trace := w.trace ++ [.init] }
    have hc : callsDuring (initializeDatabase env) w = .init :: .fetchMenuData :: rest :=
      callsDuring_of_trace _ _ _ (by rw [initializeDatabase_initOk env w h, htr]; simp)
    rw [hc]
    simp [List.count_cons, List.count_eq_zero_of_not_mem hrest]

/-- C8 on a screen whose storage cannot be opened, and on one whose storage
opens over a stored row. -/
theorem initializeDatabase_gate_witness :
    callsDuring (initializeDatabase ⟨true, false, .document (some [greekSalad]), false⟩)
        (World.mount []) =
        [.init, .consoleError "Error initializing database:" .storageInit] ∧
    (callsDuring (initializeDatabase ⟨false, false, .fetchFails, false⟩)
      (World.mount [greekSalad])).count Call.fetchMenuData = 1 :=
  ⟨((initializeDatabase_gate ⟨true, false, .document (some [greekSalad]), false⟩
      (World.mount [])).1 rfl).2.1,
    (initializeDatabase_gate ⟨false, false, .fetchFails, false⟩
      (World.mount [greekSalad])).2 rfl⟩

/-! ## The render-time category filter -/

/-- C2: every item handed to the `FlatList` has its category among the
selected ones, or nothing is selected; and under a non-empty selection the list
handed over is exactly the items of `menuData` with a selected category, in
their original order. -/
theorem flatListData_selected (menuData : List MenuItem) (selectedCategories : List String) :
    (∀ item ∈ flatListData menuData selectedCategories,
      item.category ∈ selectedCategories ∨ selectedCategories = []) ∧
    (selectedCategories ≠ [] →
      flatListData menuData selectedCategories =
        menuData.filter (fun item => decide (item.category ∈ selectedCategories))) ∧
    (selectedCategories ≠ [] → ∀ item,
      item ∈ flatListData menuData selectedCategories ↔
        item ∈ menuData ∧ item.category ∈ selectedCategories) ∧
    (flatListData menuData selectedCategories).Sublist menuData := by
  have hne : selectedCategories ≠ [] →
      flatListData menuData selectedCategories =
        menuData.filter (fun item => decide (item.category ∈ selectedCategories)) := by
    intro h
    unfold flatListData
    congr 1
    funext item
    have hl : (selectedCategories.length == 0) = false := by
      cases selectedCategories with
      | nil => exact absurd rfl h
      | cons a l => rfl
    simp [hl]
  refine ⟨?_, hne, ?_, List.filter_sublist _⟩
  · intro item hi
    have h := (List.mem_filter.mp hi).2
    simpa using h
  · intro h item
    rw [hne h, List.mem_filter]
    simp

/-- C2 on a menu of two rows with only "Desserts" selected. -/
theorem flatListData_selected_witness :
    flatListData [greekSalad, lemonDessert] ["Desserts"] =
      [greekSalad, lemonDessert].filter (fun item => decide (item.category ∈ ["Desserts"])) :=
  (flatListData_selected [greekSalad, lemonDessert] ["Desserts"]).2.1 (by decide)

/-- C3: with nothing selected the filter hands `menuData` over unchanged, every
row in the same order. -/
theorem flatListData_nothing_selected (menuData : List MenuItem) :
    flatListData menuData [] = menuData := by
  simp [flatListData]

/-! ## The category toggle -/

/-- C10: after `handleSelectCategory` the category is selected exactly when it
was not before, every other category keeps its membership, a duplicate-free
selection stays duplicate-free, and toggling twice gives back the same members,
and the same list when the category was not selected at first. -/
theorem handleSelectCategory_toggle (category : String) (prev : List String) :
    (category ∈ handleSelectCategory category prev ↔ category ∉ prev) ∧
    (∀ other, other ≠ category →
      (other ∈ handleSelectCategory category prev ↔ other ∈ prev)) ∧
    (prev.Nodup → (handleSelectCategory category prev).Nodup) ∧
    (∀ c, c ∈ handleSelectCategory category (handleSelectCategory category prev) ↔ c ∈ prev) ∧
    (category ∉ prev →
      handleSelectCategory category (handleSelectCategory category prev) = prev) := by
  by_cases h : category ∈ prev
  · have hc : prev.contains category = true := by simpa using h
    have h1 : handleSelectCategory category prev = prev.filter fun cat => cat != category := by
      simp only [handleSelectCategory, if_pos hc]
    have hnot : category ∉ prev.filter fun cat => cat != category := by
      simp [List.mem_filter]
    have h2 : handleSelectCategory category (prev.filter fun cat => cat != category) =
        (prev.filter fun cat => cat != category) ++ [category] := by
      have : ¬ (prev.filter fun cat => cat != category).contains category = true := by
        simp
      simp only [handleSelectCategory, if_neg this]
    refine ⟨?_, ?_, ?_, ?_, fun hn => absurd h hn⟩
    · rw [h1]; simp [h]
    · intro other ho; rw [h1]; simp [List.mem_filter, ho]
    · intro hnd; rw [h1]; exact hnd.filter _
    · intro c
      rw [h1, h2]
      by_cases hcc : c = category
      · subst hcc; simp [h]
      · simp [List.mem_filter, hcc]
  · have hc : ¬ prev.contains category = true := by simpa using h
    have h1 : handleSelectCategory category prev = prev ++ [category] := by
      simp only [handleSelectCategory, if_neg hc]
    have h2 : handleSelectCategory category (prev ++ [category]) = prev := by
      have hf : prev.filter (fun cat => cat != category) = prev := by
        rw [List.filter_eq_self]
        intro a ha
        have : a ≠ category := fun e => h (e ▸ ha)
        simpa using this
      simp [handleSelectCategory, List.filter_append, hf]
    refine ⟨?_, ?_, ?_, ?_, fun _ => ?_⟩
    · rw [h1]; simp [h]
    · intro other ho; rw [h1]; simp [ho]
    · intro hnd
      rw [h1, List.nodup_append]
      refine ⟨hnd, List.nodup_singleton _, ?_⟩
      intro a ha hb
      rw [List.mem_singleton] at hb
      exact h (hb ▸ ha)
    · intro c; rw [h1, h2]
    · rw [h1, h2]

/-- C10 on a selection that does not hold the toggled category. -/
theorem handleSelectCategory_toggle_witness :
    (handleSelectCategory "Mains" ["Starters", "Desserts"]).Nodup ∧
    handleSelectCategory "Mains" (handleSelectCategory "Mains" ["Starters", "Desserts"]) =
      ["Starters", "Desserts"] :=
  ⟨(handleSelectCategory_toggle "Mains" ["Starters", "Desserts"]).2.2.1 (by decide),
    (handleSelectCategory_toggle "Mains" ["Starters", "Desserts"]).2.2.2.2 (by decide)⟩

/-! ## The debounce effect -/

/-- Passing time keeps a queue of at most one timer, owned by the latest
cleanup, in that shape. -/
theorem elapse_tidy (d : Nat) (s : Scheduler)
    (h : s.timers.length ≤ 1 ∧ ∀ tm ∈ s.timers, s.cleanup = some tm.id) :
    (elapse d s).timers.length ≤ 1 ∧ ∀ tm ∈ (elapse d s).timers, (elapse d s).cleanup = some tm.id := by
  refine ⟨le_trans (List.length_filter_le _ _) h.1, fun tm htm => ?_⟩
  exact h.2 tm (List.mem_filter.mp htm).1

/-- The cleanup empties a queue whose timers it owns. -/
theorem runCleanup_timers (s : Scheduler) (h : ∀ tm ∈ s.timers, s.cleanup = some tm.id) :
    (runCleanup s).timers = [] ∧ (runCleanup s).calls = s.calls ∧
      (runCleanup s).now = s.now := by
  unfold runCleanup
  cases hc : s.cleanup with
  | none =>
    refine ⟨?_, rfl, rfl⟩
    cases ht : s.timers with
    | nil => rfl
    | cons tm l =>
      have := h tm (by rw [ht]; exact List.mem_cons_self _ _)
      rw [hc] at this
      cases this
  | some id =>
    refine ⟨?_, rfl, rfl⟩
    show s.timers.filter (fun tm => tm.id != id) = []
    rw [List.filter_eq_nil_iff]
    intro tm htm
    have := h tm htm
    rw [hc] at this
    cases this
    simp

/-- After a filter change on a tidy queue exactly the new invocation is
pending, due one delay after the change, and nothing was invoked except what
had come due before the change arrived. -/
theorem filterChange_armed (gap : Nat) (f : Filter) (s : Scheduler)
    (h : s.timers.length ≤ 1 ∧ ∀ tm ∈ s.timers, s.cleanup = some tm.id) :
    (filterChange gap f s).timers =
        [{ id := (filterChange gap f s).nextId - 1, due := (filterChange gap f s).now + wait,
           filter := f }] ∧
      (filterChange gap f s).cleanup = some ((filterChange gap f s).nextId - 1) ∧
      (filterChange gap f s).calls = (elapse gap s).calls := by
  obtain ⟨ht, hc, hn⟩ := runCleanup_timers (elapse gap s) (elapse_tidy gap s h).2
  refine ⟨?_, ?_, ?_⟩
  · show (runCleanup (elapse gap s)).timers ++ _ = _
    rw [ht]
    simp [filterChange, runEffect]
  · simp [filterChange, runEffect]
  · exact hc

/-- Every reachable state has at most one timer armed, owned by the cleanup
of the latest effect run. -/
theorem reachable_tidy (s : Scheduler) (hs : Reachable s) :
    s.timers.length ≤ 1 ∧ ∀ tm ∈ s.timers, s.cleanup = some tm.id := by
  induction hs with
  | initial => exact ⟨by decide, fun tm htm => by cases htm⟩
  | step _ hstep ih =>
    cases hstep with
    | change gap f _ =>
      obtain ⟨ht, hc, _⟩ := filterChange_armed gap f _ ih
      refine ⟨by rw [ht]; simp, fun tm htm => ?_⟩
      rw [ht, List.mem_singleton] at htm
      rw [hc, htm]
    | idle d _ => exact elapse_tidy d _ ih

/-- A pending invocation that is not yet due survives a wait shorter than the
delay without being invoked. -/
theorem elapse_not_due (d : Nat) (s : Scheduler) (tm : Timer) (ht : s.timers = [tm])
    (hdue : s.now + d < tm.due) :
    (elapse d s).timers = [tm] ∧ (elapse d s).calls = s.calls := by
  have hn : ¬ tm.due ≤ s.now + d := Nat.not_le.mpr hdue
  simp [elapse, ht, hn]

/-- A pending invocation is made once its delay has passed. -/
theorem elapse_due (d : Nat) (s : Scheduler) (tm : Timer) (ht : s.timers = [tm])
    (hdue : tm.due ≤ s.now + d) :
    (elapse d s).timers = [] ∧ (elapse d s).calls = s.calls ++ [tm.filter] := by
  simp [elapse, ht, hdue]

/-- A run of filter changes, each less than the delay after the one before,
from a state whose only timer is due one delay from now and owned by the
cleanup: nothing is invoked, and the only pending invocation is that of the
latest filter. -/
theorem filterChanges_armed (es : List (Nat × Filter)) (s : Scheduler) (f : Filter)
    (harm : s.timers = [{ id := s.nextId - 1, due := s.now + wait, filter := f }])
    (hcl : s.cleanup = some (s.nextId - 1))
    (hgap : ∀ x ∈ es, x.1 < wait) :
    (filterChanges es s).timers =
        [{ id := (filterChanges es s).nextId - 1, due := (filterChanges es s).now + wait,
           filter := ((f :: es.map Prod.snd).getLast (List.cons_ne_nil _ _)) }] ∧
      (filterChanges es s).cleanup = some ((filterChanges es s).nextId - 1) ∧
      (filterChanges es s).calls = s.calls := by
  induction es generalizing s f with
  | nil => exact ⟨harm, hcl, rfl⟩
  | cons e es ih =>
    have htidy : s.timers.length ≤ 1 ∧ ∀ tm ∈ s.timers, s.cleanup = some tm.id := by
      rw [harm]
      refine ⟨by simp, fun tm htm => ?_⟩
      rw [List.mem_singleton] at htm
      rw [hcl, htm]
    obtain ⟨h1, h2, h3⟩ := filterChange_armed e.1 e.2 s htidy
    have hlt : e.1 < wait := hgap e (List.mem_cons_self _ _)
    have hcalls : (elapse e.1 s).calls = s.calls :=
      (elapse_not_due e.1 s _ harm (by simpa using hlt)).2
    have := ih (filterChange e.1 e.2 s) e.2 h1 h2
      (fun x hx => hgap x (List.mem_cons_of_mem _ hx))
    simp only [filterChanges, List.foldl_cons] at this ⊢
    refine ⟨?_, this.2.1, ?_⟩
    · rw [this.1]
      simp [List.getLast_cons]
    · rw [this.2.2, h3, hcalls]

/-- C5: from any reachable state, a sequence of one or more filter changes in
which every change after the first arrives less than 500 time units after the
one before it makes no invocation of `fetchFilteredMenuData` while the changes
keep coming, leaves one invocation pending, and once 500 time units have passed
after the last change exactly one invocation has been made, with the
`selectedCategories` and `searchText` of the last change; and every reachable
state has at most one invocation pending. -/
theorem debounce_coalesces (s : Scheduler) (hs : Reachable s) (e : Nat × Filter)
    (es : List (Nat × Filter)) (hgap : ∀ x ∈ es, x.1 < 500) (d : Nat) (hd : 500 ≤ d) :
    (filterChanges (e :: es) s).calls = (elapse e.1 s).calls ∧
    (filterChanges (e :: es) s).timers.length = 1 ∧
    (elapse d (filterChanges (e :: es) s)).calls =
      (elapse e.1 s).calls ++ [((e :: es).getLast (List.cons_ne_nil e es)).2] ∧
    (elapse d (filterChanges (e :: es) s)).timers = [] ∧
    (s = Scheduler.initial →
      (elapse d (filterChanges (e :: es) s)).calls =
        [((e :: es).getLast (List.cons_ne_nil e es)).2]) ∧
    (∀ t, Reachable t → t.timers.length ≤ 1) := by
  obtain ⟨h1, h2, h3⟩ := filterChange_armed e.1 e.2 s (reachable_tidy s hs)
  obtain ⟨k1, _, k3⟩ := filterChanges_armed es (filterChange e.1 e.2 s) e.2 h1 h2 hgap
  have hfold : filterChanges (e :: es) s = filterChanges es (filterChange e.1 e.2 s) := rfl
  have hlast : (e.2 :: es.map Prod.snd).getLast (List.cons_ne_nil _ _) =
      ((e :: es).getLast (List.cons_ne_nil e es)).2 := by
    have : e.2 :: es.map Prod.snd = (e :: es).map Prod.snd := rfl
    simp only [this, List.getLast_map]
  rw [hlast] at k1
  have hcalls : (filterChanges (e :: es) s).calls = (elapse e.1 s).calls := by
    rw [hfold, k3, h3]
  have hfire := elapse_due d (filterChanges (e :: es) s) _ (hfold ▸ k1)
    (by show _ + wait ≤ _ + d; exact Nat.add_le_add_left hd _)
  refine ⟨hcalls, by rw [hfold, k1]; rfl, ?_, hfire.1, ?_, fun t ht => (reachable_tidy t ht).1⟩
  · rw [hfire.2, hcalls]
  · intro hinit
    rw [hfire.2, hcalls, hinit]
    rfl

/-- C5 on three changes after mounting, 499 and 100 time units apart: the one
invocation is that of the third filter. -/
theorem debounce_coalesces_witness :
    (elapse 500 (filterChanges
      [(0, ⟨[], ""⟩), (499, ⟨["Starters"], ""⟩), (100, ⟨["Starters"], "salad"⟩)]
      Scheduler.initial)).calls = [⟨["Starters"], "salad"⟩] :=
  (debounce_coalesces Scheduler.initial Reachable.initial (0, ⟨[], ""⟩)
    [(499, ⟨["Starters"], ""⟩), (100, ⟨["Starters"], "salad"⟩)] (by decide) 500
    (le_refl 500)).2.2.2.2.1 rfl

/-! ## The list keys -/

/-- Two lists that agree after a separator absent from both prefixes have the
same prefix and the same rest. -/
theorem split_at_first {c : Char} (a b x y : List Char) (ha : c ∉ a) (hb : c ∉ b)
    (h : a ++ c :: x = b ++ c :: y) : a = b ∧ x = y := by
  induction a generalizing b with
  | nil =>
    cases b with
    | nil => simpa using h
    | cons b0 b1 =>
      simp only [List.nil_append, List.cons_append, List.cons.injEq] at h
      exact absurd (List.mem_cons.mpr (Or.inl h.1)) hb
  | cons a0 a1 ih =>
    cases b with
    | nil =>
      simp only [List.nil_append, List.cons_append, List.cons.injEq] at h
      exact absurd (List.mem_cons.mpr (Or.inl h.1.symm)) ha
    | cons b0 b1 =>
      simp only [List.cons_append, List.cons.injEq] at h
      have := ih b1 (fun hm => ha (List.mem_cons_of_mem _ hm))
        (fun hm => hb (List.mem_cons_of_mem _ hm)) h.2
      exact ⟨by rw [h.1, this.1], this.2⟩

/-- Two lists that agree before a separator absent from both suffixes have the
same prefix and the same suffix. -/
theorem split_at_last {c : Char} (a b x y : List Char) (hx : c ∉ x) (hy : c ∉ y)
    (h : a ++ c :: x = b ++ c :: y) : a = b ∧ x = y := by
  have hrev : x.reverse ++ c :: a.reverse = y.reverse ++ c :: b.reverse := by
    have := congrArg List.reverse h
    simpa using this
  have := split_at_first x.reverse y.reverse a.reverse b.reverse
    (by simpa using hx) (by simpa using hy) hrev
  exact ⟨List.reverse_injective this.2, List.reverse_injective this.1⟩

/-- The value of a digit character. -/
theorem digitChar_value (k : Nat) (hk : k < 10) :
    (Nat.digitChar k).toNat - 48 = k ∧ Nat.digitChar k ≠ '-' := by
  interval_cases k <;> decide

/-- The digits that `Nat.toDigitsCore` puts in front of its accumulator spell
the number and hold no dash. -/
theorem toDigitsCore_spells (fuel : Nat) :
    ∀ n, n < fuel → ∀ ds : List Char, ∃ pre : List Char,
      Nat.toDigitsCore 10 fuel n ds = pre ++ ds ∧
      pre.foldl (fun acc c => acc * 10 + (c.toNat - 48)) 0 = n ∧ '-' ∉ pre := by
  induction fuel with
  | zero => intro n hn; exact absurd hn (Nat.not_lt_zero n)
  | succ fuel ih =>
    intro n hn ds
    have hd := digitChar_value (n % 10) (Nat.mod_lt n (by decide))
    by_cases h0 : n / 10 = 0
    · refine ⟨[Nat.digitChar (n % 10)], ?_, ?_, ?_⟩
      · simp [Nat.toDigitsCore, h0]
      · have hlt : n < 10 := by omega
        have h1 := hd.1
        rw [Nat.mod_eq_of_lt hlt] at h1 ⊢
        simpa using h1
      · simpa using hd.2.symm
    · have hlt : n / 10 < fuel := by omega
      obtain ⟨pre, hpre, hval, hdash⟩ := ih (n / 10) hlt (Nat.digitChar (n % 10) :: ds)
      refine ⟨pre ++ [Nat.digitChar (n % 10)], ?_, ?_, ?_⟩
      · simp [Nat.toDigitsCore, h0, hpre]
      · rw [List.foldl_append, hval]
        simp only [List.foldl_cons, List.foldl_nil, hd.1]
        omega
      · simp only [List.mem_append, List.mem_singleton, not_or]
        exact ⟨hdash, hd.2.symm⟩

/-- The decimal rendering of an index holds no dash and determines the
index. -/
theorem toString_nat (n : Nat) :
    '-' ∉ (toString n).data ∧
      (toString n).data.foldl (fun acc c => acc * 10 + (c.toNat - 48)) 0 = n := by
  obtain ⟨pre, hpre, hval, hdash⟩ := toDigitsCore_spells (n + 1) n (Nat.lt_succ_self n) []
  have : (toString n).data = pre := by
    show (Nat.toDigits 10 n) = pre
    simpa [Nat.toDigits] using hpre
  rw [this]
  exact ⟨hdash, hval⟩

/-- The characters of a key. -/
theorem keyExtractor_data (item : MenuItem) (index : Nat) :
    (keyExtractor item index).data = item.name.data ++ '-' :: (toString index).data := by
  simp [keyExtractor, String.data_append]

/-- C9: the key of a row determines its name and its index, for all names
(dashes and digits included) and all indices; hence the keys of the rows of any
list are pairwise distinct. -/
theorem keyExtractor_unique :
    (∀ (item1 item2 : MenuItem) (i j : Nat),
      keyExtractor item1 i = keyExtractor item2 j ↔ item1.name = item2.name ∧ i = j) ∧
    (∀ data : List MenuItem, (listKeys data).Nodup) := by
  have hinj : ∀ (item1 item2 : MenuItem) (i j : Nat),
      keyExtractor item1 i = keyExtractor item2 j → item1.name = item2.name ∧ i = j := by
    intro item1 item2 i j h
    have hd := congrArg String.data h
    rw [keyExtractor_data, keyExtractor_data] at hd
    obtain ⟨hn, hi⟩ := split_at_last _ _ _ _ (toString_nat i).1 (toString_nat j).1 hd
    refine ⟨String.ext hn, ?_⟩
    have := congrArg (List.foldl (fun acc c => acc * 10 + (c.toNat - 48)) 0) hi
    rwa [(toString_nat i).2, (toString_nat j).2] at this
  refine ⟨fun item1 item2 i j => ⟨hinj item1 item2 i j, fun h => ?_⟩, fun data => ?_⟩
  · simp [keyExtractor, h.1, h.2]
  · have hfst : (data.enum.map Prod.fst).Nodup := by
      rw [List.enum_map_fst]
      exact List.nodup_range _
    unfold listKeys
    rw [List.Nodup, List.pairwise_map] at hfst ⊢
    exact hfst.imp fun hne hk => hne (hinj _ _ _ _ hk).2

end LittleLemon
